import Mathlib

/-!
# Verification of the NeuralProtocol tool-orchestration layer

Shallow embedding of the tool registry / dispatcher (`src/utils/tools_manager.py`),
the subprocess studio (`src/utils/mcp_studio.py`) and the HTTP/SSE client and
studio (`src/utils/mcp_see_http.py`), together with proofs of the behavioural
claims about registration, dispatch, approval gating, the HTTP listing/calling
cascades, fleet initialization and teardown.

Python values appearing on the wire are modelled by an explicit `Json` type;
Python exceptions are modelled by `Except String`; the side effects relevant to
the claims (which HTTP requests are issued, whether the approval gate and the
transport were touched) are modelled as explicit event traces returned next to
the result.
-/

set_option autoImplicit false

namespace NeuralProtocol

/-- JSON values, the payloads exchanged with HTTP MCP servers.  Objects are
association lists with distinct keys (as produced by a JSON parser). -/
inductive Json where
  | null : Json
  | bool : Bool → Json
  | num : Int → Json
  | str : String → Json
  | arr : List Json → Json
  | obj : List (String × Json) → Json

/-- First value stored under key `k` in a parsed JSON object. -/
def jsonLookup (k : String) : List (String × Json) → Option Json
  | [] => none
  | (k₁, v) :: rest => if k₁ = k then some v else jsonLookup k rest

/-- Whether Python `len()` succeeds on the value: lists, strings and dicts are
sized, `None` / booleans / numbers are not. -/
def jsonSized : Json → Bool
  | .arr _ => true
  | .str _ => true
  | .obj _ => true
  | _ => false

/-- A single ASCII apostrophe, used when rebuilding Python f-string messages. -/
def squote : String := String.singleton (Char.ofNat 39)

/-- `needle` occurs contiguously inside `hay`. -/
def strContains (hay needle : String) : Prop :=
  needle.data <:+: hay.data

instance (hay needle : String) : Decidable (strContains hay needle) := by
  unfold strContains
  infer_instance

/-! ## HTTP wire model (`mcp_see_http.py`)

A remote server is a function from requests to outcomes: either an HTTP
response (status, parsed JSON body, headers) or a raised client exception.
The base URL is represented by the empty path `""`; the well-known endpoint
paths are relative to it, matching `urljoin(self.base_url, endpoint)` for a
base URL without a path component. -/

/-- An HTTP response delivered to the client. -/
structure HttpResponse where
  status : Nat
  body : Json
  headers : List (String × String)

/-- Outcome of one HTTP request: a response, or a raised exception. -/
inductive HttpOutcome where
  | resp : HttpResponse → HttpOutcome
  | exn : String → HttpOutcome

/-- The remote environment of one `HttpMCPServer`: responses to GETs by path
and to POSTs by path and JSON body. -/
structure NetEnv where
  getAt : String → HttpOutcome
  postAt : String → Json → HttpOutcome

/-- One request issued by the client, with the path contacted and the
`mcp-session-id` header attached to it (if any). -/
inductive ReqEvent where
  | getReq : String → Option String → ReqEvent
  | postReq : String → Option String → ReqEvent
  deriving DecidableEq

/-- The `mcp-session-id` header carried by a recorded request. -/
def reqSession : ReqEvent → Option String
  | .getReq _ s => s
  | .postReq _ s => s

/-- First value of header `k` in a response header list. -/
def headerLookup (k : String) : List (String × String) → Option String
  | [] => none
  | (k₁, v) :: rest => if k₁ = k then some v else headerLookup k rest

/-! ### Connectivity probe (`HttpMCPServer._test_connection`) -/

/-- Health endpoints probed at init time, in order. -/
def healthEndpoints : List String := ["/", "/health", "/status"]

/-- The probe loop of `_test_connection`: walk the health endpoints in order;
a 200 response is accepted and its `mcp-session-id` header (if any) is
captured; any other response with status < 500 is accepted without capturing;
a 5xx response or a raised request moves to the next endpoint.  When every
endpoint has failed, one last GET to the base URL is issued and any outcome is
accepted.  Returns the captured session token and the trace of requests; probe
requests carry no session header (none has been captured yet). -/
def testConnectionGo (env : NetEnv) : List String → Option String × List ReqEvent
  | [] => (none, [ReqEvent.getReq "" none])
  | p :: ps =>
    match env.getAt p with
    | .exn _ =>
      let (c, tr) := testConnectionGo env ps
      (c, ReqEvent.getReq p none :: tr)
    | .resp r =>
      if r.status = 200 then
        (headerLookup "mcp-session-id" r.headers, [ReqEvent.getReq p none])
      else if r.status < 500 then
        (none, [ReqEvent.getReq p none])
      else
        let (c, tr) := testConnectionGo env ps
        (c, ReqEvent.getReq p none :: tr)

/-- `HttpMCPServer._test_connection`. -/
def testConnection (env : NetEnv) : Option String × List ReqEvent :=
  testConnectionGo env healthEndpoints

/-! ### Tool listing (`HttpMCPServer._list_tools_aiohttp`) -/

/-- Listing endpoints tried in order by `_list_tools_aiohttp`. -/
def listEndpoints : List String := ["/tools", "/api/tools", "/mcp/tools"]

/-- Outcome of processing a 200 listing response body, mirroring the
`isinstance` branches: a dict with a `tools` key returns that value (but a
value without `len()` raises, which the per-endpoint handler turns into a move
to the next endpoint); a bare list is returned as is; anything else returns
the empty list. -/
inductive ListBodyOutcome where
  | ret : Json → ListBodyOutcome
  | lenRaise : ListBodyOutcome

/-- Body dispatch of the 200 branch of `_list_tools_aiohttp`. -/
def parseListBody : Json → ListBodyOutcome
  | .obj fs =>
    match jsonLookup "tools" fs with
    | some v => if jsonSized v then .ret v else .lenRaise
    | none => .ret (.arr [])
  | .arr xs => .ret (.arr xs)
  | _ => .ret (.arr [])

/-- The direct-style listing loop: GET each endpoint in order carrying the
current session header; the first 200 response is parsed and returned; a 404,
any other non-200 status, a raised request, or a `len()` failure moves to the
next endpoint.  Returns the result (if any endpoint produced one) and the
request trace. -/
def listDirect (env : NetEnv) (sess : Option String) :
    List String → Option Json × List ReqEvent
  | [] => (none, [])
  | p :: ps =>
    let ev := ReqEvent.getReq p sess
    match env.getAt p with
    | .exn _ =>
      let (r, tr) := listDirect env sess ps
      (r, ev :: tr)
    | .resp r =>
      if r.status = 200 then
        match parseListBody r.body with
        | .ret v => (some v, [ev])
        | .lenRaise =>
          let (r₁, tr) := listDirect env sess ps
          (r₁, ev :: tr)
      else
        let (r₁, tr) := listDirect env sess ps
        (r₁, ev :: tr)

/-- The JSON-RPC `tools/list` request body sent by the fallback. -/
def mcpListRequest : Json :=
  .obj [("jsonrpc", .str "2.0"), ("id", .num 1),
        ("method", .str "tools/list"), ("params", .obj [])]

/-- Outcome of `result.get('result', {}).get('tools', [])` on the fallback
response body: the extracted value, or a raised `AttributeError` / `len()`
failure (which the handler turns into an empty list). -/
inductive FallbackOutcome where
  | ret : Json → FallbackOutcome
  | raised : FallbackOutcome

/-- Extraction from the JSON-RPC listing fallback response body. -/
def fallbackListExtract : Json → FallbackOutcome
  | .obj fs =>
    match jsonLookup "result" fs with
    | none => .ret (.arr [])
    | some (.obj gs) =>
      match jsonLookup "tools" gs with
      | none => .ret (.arr [])
      | some t => if jsonSized t then .ret t else .raised
    | some _ => .raised
  | _ => .raised

/-- `HttpMCPServer._list_tools_aiohttp`: the direct cascade over
`listEndpoints`, then — only if no direct endpoint produced a result — a
single JSON-RPC POST (`tools/list`) to the base URL whose `result.tools` is
returned; every remaining failure yields the empty list.  Total: no exception
escapes to the caller. -/
def listToolsAiohttp (env : NetEnv) (sess : Option String) : Json × List ReqEvent :=
  match listDirect env sess listEndpoints with
  | (some v, tr) => (v, tr)
  | (none, tr) =>
    let ev := ReqEvent.postReq "" sess
    match env.postAt "" mcpListRequest with
    | .exn _ => (.arr [], tr ++ [ev])
    | .resp r =>
      if r.status = 200 then
        match fallbackListExtract r.body with
        | .ret v => (v, tr ++ [ev])
        | .raised => (.arr [], tr ++ [ev])
      else (.arr [], tr ++ [ev])

/-! ### Tool calls (`HttpMCPServer._call_tool_aiohttp`) -/

/-- Call endpoints for tool `n`, tried in order. -/
def callEndpoints (n : String) : List String :=
  ["/tools/" ++ n, "/api/tools/" ++ n, "/mcp/tools/" ++ n]

/-- The POST body `{tool, arguments, timestamp}` of a direct-style call. -/
def callPayload (n : String) (args : Json) (ts : String) : Json :=
  .obj [("tool", .str n), ("arguments", args), ("timestamp", .str ts)]

/-- The direct-style call loop: POST the payload to each endpoint in order;
the first 200 response body is returned; a 404, any other status, or a raised
request moves to the next endpoint. -/
def callDirect (env : NetEnv) (sess : Option String) (body : Json) :
    List String → Option Json × List ReqEvent
  | [] => (none, [])
  | p :: ps =>
    let ev := ReqEvent.postReq p sess
    match env.postAt p body with
    | .exn _ =>
      let (r, tr) := callDirect env sess body ps
      (r, ev :: tr)
    | .resp r =>
      if r.status = 200 then (some r.body, [ev])
      else
        let (r₁, tr) := callDirect env sess body ps
        (r₁, ev :: tr)

/-- The JSON-RPC `tools/call` request body sent by the fallback. -/
def mcpCallRequest (n : String) (args : Json) : Json :=
  .obj [("jsonrpc", .str "2.0"), ("id", .num 1),
        ("method", .str "tools/call"),
        ("params", .obj [("name", .str n), ("arguments", args)])]

/-- `HttpMCPServer._call_tool_aiohttp`: the direct cascade, then a JSON-RPC
`tools/call` POST to the base URL returning `result.get('result', result)`;
unlike listing, a failing fallback raises a client error to the caller. -/
def callToolAiohttp (env : NetEnv) (sess : Option String) (n : String)
    (args : Json) (ts : String) : Except String Json × List ReqEvent :=
  match callDirect env sess (callPayload n args ts) (callEndpoints n) with
  | (some v, tr) => (.ok v, tr)
  | (none, tr) =>
    let ev := ReqEvent.postReq "" sess
    match env.postAt "" (mcpCallRequest n args) with
    | .exn m => (.error ("All tool call methods failed: " ++ m), tr ++ [ev])
    | .resp r =>
      if r.status = 200 then
        match r.body with
        | .obj fs => (.ok ((jsonLookup "result" fs).getD (.obj fs)), tr ++ [ev])
        | _ => (.error "All tool call methods failed: AttributeError", tr ++ [ev])
      else (.error ("All tool call methods failed: HTTP " ++ toString r.status), tr ++ [ev])

/-- One direct listing endpoint fails cleanly: the request raised, or the
response status is not 200. -/
def outcomeFails : HttpOutcome → Prop
  | .exn _ => True
  | .resp r => r.status ≠ 200

instance (o : HttpOutcome) : Decidable (outcomeFails o) := by
  cases o <;> simp [outcomeFails] <;> infer_instance

/-- All three direct listing endpoints fail cleanly. -/
def directAllFail (env : NetEnv) : Prop :=
  outcomeFails (env.getAt "/tools") ∧ outcomeFails (env.getAt "/api/tools") ∧
    outcomeFails (env.getAt "/mcp/tools")

/-- The trace of the three direct listing GETs, in order. -/
def directTrace (sess : Option String) : List ReqEvent :=
  [ReqEvent.getReq "/tools" sess, ReqEvent.getReq "/api/tools" sess,
   ReqEvent.getReq "/mcp/tools" sess]

/-! ## Connection descriptors (`ServerConfig`, `HttpServerConfig`)

The pydantic construction `ServerConfig(**config)` / `HttpServerConfig(**config)`
is modelled over well-typed keyword mappings in which each field is either
present or missing; a missing field with a pydantic default takes that default,
and a missing field declared `Field(...)` (required) makes construction fail
with a `ValidationError`. -/

/-- Keyword mapping passed to `ServerConfig(**config)`; every field optional. -/
structure StdioRawConfig where
  transport : Option String := none
  command : Option String := none
  args : Option (List String) := none
  env : Option (List (String × String)) := none
  url : Option String := none

/-- A constructed `ServerConfig` (mcp_studio.py): every field is optional with
a default, `transport` defaulting to `"stdio"`. -/
structure ServerConfig where
  transport : String
  command : Option String
  args : Option (List String)
  env : Option (List (String × String))
  url : Option String

/-- Pydantic construction of `ServerConfig`: no field is required, so a
well-typed mapping always validates; in particular a stdio entry with no
`command` constructs successfully. -/
def mkServerConfig (raw : StdioRawConfig) : Except String ServerConfig :=
  .ok { transport := raw.transport.getD "stdio", command := raw.command,
        args := raw.args, env := raw.env, url := raw.url }

/-- The validation prefix of `MCPServer.initialize`: reject non-stdio
transports, then reject a missing `command` — both raised only at
initialization time. -/
def mcpServerInitValidate (name : String) (cfg : ServerConfig) : Except String Unit :=
  if cfg.transport ≠ "stdio" then
    .error ("Server " ++ name ++ " uses " ++ cfg.transport ++
      " transport, but only stdio is supported")
  else
    match cfg.command with
    | none => .error ("Server " ++ name ++ " requires a command for stdio transport")
    | some _ => .ok ()

/-- Keyword mapping passed to `HttpServerConfig(**config)`. -/
structure HttpRawConfig where
  transport : Option String := none
  url : Option String := none
  headers : Option (List (String × String)) := none
  timeout : Option Int := none
  ssl : Option Bool := none

/-- A constructed `HttpServerConfig` (mcp_see_http.py): `transport` and `url`
are required (`Field(...)`), the rest default. -/
structure HttpServerConfig where
  transport : String
  url : String
  headers : Option (List (String × String))
  timeout : Int
  ssl : Bool

/-- Pydantic construction of `HttpServerConfig`: fails with a
`ValidationError` when `transport` or `url` is missing. -/
def mkHttpServerConfig (raw : HttpRawConfig) : Except String HttpServerConfig :=
  match raw.transport, raw.url with
  | some t, some u =>
    .ok { transport := t, url := u, headers := raw.headers,
          timeout := raw.timeout.getD 30, ssl := raw.ssl.getD true }
  | none, _ => .error "ValidationError: transport field required"
  | some _, none => .error "ValidationError: url field required"

/-! ## Fleet initialization (`MCPStudio` / `HttpMCPStudio`)

For the bulk-lifecycle claims each server is reduced to its name, whether its
`initialize()` would succeed (the environment), and its lifecycle flag
(`session is not None` for stdio, `is_connected` for HTTP).  A failing
`initialize` cleans the server up and raises. -/

/-- A subprocess server as seen by `MCPStudio.initialize_all_servers`. -/
structure StdioSrv where
  name : String
  initOk : Bool
  sessionOn : Bool

/-- `MCPServer.initialize`: on success the session is set; on failure the
server cleans itself up and the error is raised (second component `true`). -/
def stdioInitialize (s : StdioSrv) : StdioSrv × Bool :=
  if s.initOk then ({ s with sessionOn := true }, false)
  else ({ s with sessionOn := false }, true)

/-- `MCPServer.cleanup` as it affects the session flag. -/
def stdioCleanup (s : StdioSrv) : StdioSrv := { s with sessionOn := false }

/-- The loop of `MCPStudio.initialize_all_servers`: initialize in order; on
the first failure, clean up every server of the studio (the already
initialized ones and the rest) and re-raise (`true`). -/
def mcpInitAllGo (done : List StdioSrv) : List StdioSrv → List StdioSrv × Bool
  | [] => (done, false)
  | s :: rest =>
    let (s₁, raised) := stdioInitialize s
    if raised then ((done ++ s₁ :: rest).map stdioCleanup, true)
    else mcpInitAllGo (done ++ [s₁]) rest

/-- `MCPStudio.initialize_all_servers`: final server states and whether the
call re-raised. -/
def mcpInitializeAll (ss : List StdioSrv) : List StdioSrv × Bool :=
  mcpInitAllGo [] ss

/-- `MCPStudio.get_initialized_servers`. -/
def mcpInitializedServers (ss : List StdioSrv) : List StdioSrv :=
  ss.filter (fun s => s.sessionOn)

/-- An HTTP server as seen by `HttpMCPStudio.initialize_all_servers`. -/
structure HttpLifeSrv where
  name : String
  initOk : Bool
  connected : Bool

/-- `HttpMCPServer.initialize` reduced to the `is_connected` flag: success
connects, failure cleans up and raises. -/
def httpLifeInit (s : HttpLifeSrv) : HttpLifeSrv × Bool :=
  if s.initOk then ({ s with connected := true }, false)
  else ({ s with connected := false }, true)

/-- `HttpMCPStudio.initialize_all_servers`: every failure is caught and
logged, the loop always reaches every server.  Returns the final states and
the names attempted, in order. -/
def httpInitializeAll : List HttpLifeSrv → List HttpLifeSrv × List String
  | [] => ([], [])
  | s :: rest =>
    let (s₁, _) := httpLifeInit s
    let (rest₁, tr) := httpInitializeAll rest
    (s₁ :: rest₁, s.name :: tr)

/-- `HttpMCPStudio.get_initialized_servers`. -/
def httpInitializedServers (ss : List HttpLifeSrv) : List HttpLifeSrv :=
  ss.filter (fun s => s.connected)

/-! ## Fleet teardown (`cleanup_all_servers`)

For the teardown claims a server carries the resources currently held by its
`AsyncExitStack` (`stack`), an append-only log of resources released so far
(`released`), its session flag, and an injected fault `closeFails` saying that
unwinding live resources raises.  `AsyncExitStack.aclose` unwinds (and thus
releases) every held callback even when one raises, and a second `aclose` on
the emptied stack is a no-op. -/

/-- A subprocess server as seen by `MCPStudio.cleanup_all_servers`. -/
structure CleanSrv where
  name : String
  stack : List Nat
  released : List Nat
  sessionOn : Bool
  closeFails : Bool

/-- `MCPServer.cleanup`: `aclose` the exit stack (releasing everything it
holds), then clear the session — unless `aclose` raised, in which case the
inner `except` logs and the session survives.  Never raises to the caller. -/
def cleanSrvCleanup (s : CleanSrv) : CleanSrv :=
  if s.closeFails && !s.stack.isEmpty then
    { s with stack := [], released := s.released ++ s.stack }
  else
    { s with stack := [], released := s.released ++ s.stack, sessionOn := false }

/-- The loop of `MCPStudio.cleanup_all_servers`: `for server in
reversed(self.servers)` — the tail portion of the list is visited before its
head.  Returns the final states (in registration order) and the names in
visit order. -/
def mcpCleanupAll : List CleanSrv → List CleanSrv × List String
  | [] => ([], [])
  | s :: rest =>
    let (rest₁, tr) := mcpCleanupAll rest
    (cleanSrvCleanup s :: rest₁, tr ++ [s.name])

/-- An HTTP server as seen by `HttpMCPStudio.cleanup_all_servers`: same
resource model plus the `is_connected` and `mcp_session_id` fields cleared by
cleanup. -/
structure HttpCleanSrv where
  name : String
  stack : List Nat
  released : List Nat
  sessionOn : Bool
  connected : Bool
  mcpSessionId : Option String
  closeFails : Bool

/-- `HttpMCPServer.cleanup`: only a live session is `aclose`d; on a raise the
inner `except` logs and the remaining assignments are skipped; otherwise the
session, connected flag and captured session id are cleared. -/
def httpCleanSrvCleanup (s : HttpCleanSrv) : HttpCleanSrv :=
  if s.sessionOn then
    if s.closeFails && !s.stack.isEmpty then
      { s with stack := [], released := s.released ++ s.stack }
    else
      { s with stack := [], released := s.released ++ s.stack,
               sessionOn := false, connected := false, mcpSessionId := none }
  else
    { s with connected := false, mcpSessionId := none }

/-- The loop of `HttpMCPStudio.cleanup_all_servers`, reversed like the
subprocess one. -/
def httpCleanupAll : List HttpCleanSrv → List HttpCleanSrv × List String
  | [] => ([], [])
  | s :: rest =>
    let (rest₁, tr) := httpCleanupAll rest
    (httpCleanSrvCleanup s :: rest₁, tr ++ [s.name])

/-! ## Tool registry and dispatcher (`tools_manager.py`)

A tool object carries an object identity `tid` (distinguishing distinct
Python objects of the same name), its `name`, `description` and `parameters`
attributes, and its invocation behaviour `run` — the collapsed
`ainvoke`/`arun`/call dispatch, returning a value or raising. -/

/-- A registered tool object. -/
structure PyTool where
  tid : Nat
  name : String
  descr : String
  params : Json
  run : Json → Except String Json

/-- The `ToolInfo` pydantic model. -/
structure ToolInfo where
  name : String
  description : String
  source : String
  parameters : Json
  category : String

/-- A validated `ToolCall`. -/
structure ToolCall where
  tool : String
  arguments : Json

/-- The `ToolResult` pydantic model. -/
structure ToolResult where
  tool_name : String
  success : Bool
  result : Option Json
  error : Option String

/-- Python dict assignment `d[k] = v`: replace the value of an existing key
in place, else append the new entry. -/
def dictInsert (k : String) (v : ToolInfo) :
    List (String × ToolInfo) → List (String × ToolInfo)
  | [] => [(k, v)]
  | (k₁, v₁) :: rest =>
    if k₁ = k then (k, v) :: rest else (k₁, v₁) :: dictInsert k v rest

/-- Python dict lookup `d.get(k)`. -/
def dictGet (k : String) : List (String × ToolInfo) → Option ToolInfo
  | [] => none
  | (k₁, v) :: rest => if k₁ = k then some v else dictGet k rest

/-- The mutable state of a `ToolsManager`. -/
structure ToolsManager where
  mcp_tools : List PyTool
  http_tools : List PyTool
  custom_tools : List PyTool
  see_tools : List PyTool
  tool_info : List (String × ToolInfo)
  approval_enabled : Bool

/-- `ToolsManager.__init__`: empty tool lists, empty info dict, approval on. -/
def mkToolsManager : ToolsManager :=
  { mcp_tools := [], http_tools := [], custom_tools := [], see_tools := [],
    tool_info := [], approval_enabled := true }

/-- `ToolsManager.set_approval_mode`. -/
def setApprovalMode (tm : ToolsManager) (enabled : Bool) : ToolsManager :=
  { tm with approval_enabled := enabled }

/-- One iteration of the registration loop in `load_mcp_tools`: append the
tool object to `mcp_tools` and overwrite `tool_info[name]` with source
`mcp_server:{serverName}`. -/
def registerMcpTool (tm : ToolsManager) (serverName : String) (t : PyTool) :
    ToolsManager :=
  { tm with
    mcp_tools := tm.mcp_tools ++ [t],
    tool_info := dictInsert t.name
      ⟨t.name, t.descr, "mcp_server:" ++ serverName, t.params, "mcp"⟩ tm.tool_info }

/-- One iteration of the registration loops in `load_http_tools`: append to
`http_tools` and overwrite `tool_info[name]` with source
`http_server:{serverName}`. -/
def registerHttpTool (tm : ToolsManager) (serverName : String) (t : PyTool) :
    ToolsManager :=
  { tm with
    http_tools := tm.http_tools ++ [t],
    tool_info := dictInsert t.name
      ⟨t.name, t.descr, "http_server:" ++ serverName, t.params, "http"⟩ tm.tool_info }

/-- One iteration of `add_custom_tools`: append to `custom_tools` and
overwrite `tool_info[name]` with source `custom`. -/
def addCustomTool (tm : ToolsManager) (t : PyTool) : ToolsManager :=
  { tm with
    custom_tools := tm.custom_tools ++ [t],
    tool_info := dictInsert t.name
      ⟨t.name, t.descr, "custom", t.params, "custom"⟩ tm.tool_info }

/-- `ToolsManager.add_custom_tools`. -/
def addCustomTools (tm : ToolsManager) (ts : List PyTool) : ToolsManager :=
  ts.foldl addCustomTool tm

/-- `ToolsManager.get_all_tools`: the concatenation
`mcp_tools + http_tools + custom_tools + see_tools`. -/
def getAllTools (tm : ToolsManager) : List PyTool :=
  tm.mcp_tools ++ tm.http_tools ++ tm.custom_tools ++ tm.see_tools

/-- `ToolsManager.find_tool_by_name`: the first tool of `get_all_tools()`
whose `name` attribute matches. -/
def findToolByName (tm : ToolsManager) (n : String) : Option PyTool :=
  (getAllTools tm).find? (fun t => t.name == n)

/-- Observable effects of one `execute_tool_call`: the approval gate being
shown a request, and a tool object being dispatched (identified by its
`tid`). -/
inductive ExecEvent where
  | approvalRequest : String → ExecEvent
  | dispatch : Nat → String → ExecEvent
  deriving DecidableEq

/-- The f-string `f"Tool '{name}' not found"`. -/
def toolNotFoundMsg (n : String) : String :=
  "Tool " ++ squote ++ n ++ squote ++ " not found"

/-- The f-string `f"Error executing tool '{name}': {e}"` built by the
normalizing `except` clause of `execute_tool_call`. -/
def execErrorMsg (n msg : String) : String :=
  "Error executing tool " ++ squote ++ n ++ squote ++ ": " ++ msg

/-- The dispatch step of `execute_tool_call`: invoke the tool object; a raise
propagates to the enclosing handler.  The transport touch is recorded either
way. -/
def dispatchTool (tool : PyTool) (call : ToolCall) :
    Except String ToolResult × List ExecEvent :=
  match tool.run call.arguments with
  | .ok v => (.ok ⟨call.tool, true, some v, none⟩, [.dispatch tool.tid call.tool])
  | .error e => (.error e, [.dispatch tool.tid call.tool])

/-- The body of `execute_tool_call` inside its `try`: resolve by name
(not-found returns a failure result without raising); with approval enabled,
display the request — which raises `AttributeError` when the name has no
`tool_info` entry — and consult the gate (`approve`), a rejection
short-circuiting to the disapproval result; otherwise dispatch. -/
def executeBody (tm : ToolsManager) (approve : Bool) (call : ToolCall) :
    Except String ToolResult × List ExecEvent :=
  match findToolByName tm call.tool with
  | none => (.ok ⟨call.tool, false, none, some (toolNotFoundMsg call.tool)⟩, [])
  | some tool =>
    if tm.approval_enabled then
      match dictGet call.tool tm.tool_info with
      | none => (.error "NoneType object has no attribute description", [])
      | some _ =>
        if approve then
          let (r, evs) := dispatchTool tool call
          (r, .approvalRequest call.tool :: evs)
        else
          (.ok ⟨call.tool, false, none, some "Tool execution disapproved by user"⟩,
           [.approvalRequest call.tool])
    else dispatchTool tool call

/-- `ToolsManager.execute_tool_call`: the body under the normalizing `except`
clause — any raise becomes `ToolResult(success=False, error=f"Error executing
tool '{name}': {e}")`.  Total: a `ToolResult` is always returned. -/
def executeToolCall (tm : ToolsManager) (approve : Bool) (call : ToolCall) :
    ToolResult × List ExecEvent :=
  match executeBody tm approve call with
  | (.ok r, evs) => (r, evs)
  | (.error e, evs) =>
    (⟨call.tool, false, none, some (execErrorMsg call.tool e)⟩, evs)

/-! ## Helper lemmas -/

theorem strContains_append_left (a m : String) : strContains (a ++ m) m := by
  unfold strContains
  rw [String.data_append]
  exact (List.suffix_append a.data m.data).isInfix

theorem strContains_of_data_eq (hay : String) (l : List Char) (needle : String)
    (h : hay.data = l ++ needle.data) : strContains hay needle := by
  unfold strContains
  rw [h]
  exact (List.suffix_append l needle.data).isInfix

theorem strContains_toolNotFoundMsg (n : String) :
    strContains (toolNotFoundMsg n) "not found" := by
  refine strContains_of_data_eq _ (("Tool " ++ squote ++ n ++ squote ++ " ").data) _ ?_
  simp only [toolNotFoundMsg, String.data_append, List.append_assoc]
  refine congrArg _ (congrArg _ (congrArg _ (congrArg _ ?_)))
  rfl

theorem strContains_execErrorMsg (n m : String) : strContains (execErrorMsg n m) m :=
  strContains_append_left ("Error executing tool " ++ squote ++ n ++ squote ++ ": ") m

theorem dictGet_dictInsert_self (k : String) (v : ToolInfo)
    (d : List (String × ToolInfo)) : dictGet k (dictInsert k v d) = some v := by
  induction d with
  | nil => simp [dictInsert, dictGet]
  | cons p rest ih =>
    obtain ⟨k₁, v₁⟩ := p
    by_cases h : k₁ = k
    · simp [dictInsert, dictGet, h]
    · simp [dictInsert, dictGet, h, ih]

theorem mem_keys_dictInsert (x k : String) (v : ToolInfo)
    (d : List (String × ToolInfo)) :
    x ∈ (dictInsert k v d).map Prod.fst ↔ x = k ∨ x ∈ d.map Prod.fst := by
  induction d with
  | nil => simp [dictInsert]
  | cons p rest ih =>
    obtain ⟨k₁, v₁⟩ := p
    by_cases h : k₁ = k
    · subst h
      simp [dictInsert]
    · simp [dictInsert, h, ih]
      tauto

theorem nodup_keys_dictInsert (k : String) (v : ToolInfo)
    (d : List (String × ToolInfo)) (h : (d.map Prod.fst).Nodup) :
    ((dictInsert k v d).map Prod.fst).Nodup := by
  induction d with
  | nil => simp [dictInsert]
  | cons p rest ih =>
    obtain ⟨k₁, v₁⟩ := p
    simp only [List.map_cons, List.nodup_cons] at h
    by_cases hk : k₁ = k
    · subst hk
      simpa [dictInsert] using h
    · simp only [dictInsert, hk, if_false, List.map_cons, List.nodup_cons]
      refine ⟨?_, ih h.2⟩
      intro hmem
      rw [mem_keys_dictInsert] at hmem
      rcases hmem with h₁ | h₁
      · exact hk h₁
      · exact h.1 h₁

theorem executeToolCall_trace (tm : ToolsManager) (approve : Bool) (call : ToolCall) :
    (executeToolCall tm approve call).2 = (executeBody tm approve call).2 := by
  unfold executeToolCall
  rcases executeBody tm approve call with ⟨r, evs⟩
  cases r <;> rfl

/-! ## C5 — unknown tool name -/

/-- C5: for every tool name not registered in the registry, `execute` on that
name returns a `ToolResult` with `success = false` whose error message is the
`not found` message (which contains the words `not found`), touches no tool,
and never raises — `executeToolCall` is total by construction. -/
theorem execute_unknown_not_found (tm : ToolsManager) (approve : Bool)
    (call : ToolCall) (h : findToolByName tm call.tool = none) :
    executeToolCall tm approve call =
      (⟨call.tool, false, none, some (toolNotFoundMsg call.tool)⟩, []) ∧
    strContains (toolNotFoundMsg call.tool) "not found" := by
  constructor
  · simp [executeToolCall, executeBody, h]
  · exact strContains_toolNotFoundMsg call.tool

/-- Witness for C5 at the freshly constructed manager and name `ghost`. -/
theorem execute_unknown_not_found_witness :
    executeToolCall mkToolsManager true ⟨"ghost", Json.null⟩ =
      (⟨"ghost", false, none, some (toolNotFoundMsg "ghost")⟩, []) ∧
    strContains (toolNotFoundMsg "ghost") "not found" :=
  execute_unknown_not_found mkToolsManager true ⟨"ghost", Json.null⟩ rfl

/-! ## C4 — approval rejection short-circuits -/

/-- A registered custom tool used by concrete executions. -/
def toolEcho : PyTool := ⟨5, "echo", "echoes its arguments", Json.obj [], fun a => .ok a⟩

/-- A manager holding `toolEcho` as a custom tool (approval on by default). -/
def tmEcho : ToolsManager := addCustomTool mkToolsManager toolEcho

/-- C4: with approval enabled and the gate rejecting, `execute` returns
`success = false` with the disapproval message (which contains `disapproved by
user`), and no tool object is ever dispatched: the trace holds exactly the
approval request and no `dispatch` event, so the transport state and call
count are unchanged. -/
theorem approval_reject_short_circuits (tm : ToolsManager) (call : ToolCall)
    (tool : PyTool) (info : ToolInfo)
    (hfind : findToolByName tm call.tool = some tool)
    (happ : tm.approval_enabled = true)
    (hinfo : dictGet call.tool tm.tool_info = some info) :
    executeToolCall tm false call =
      (⟨call.tool, false, none, some "Tool execution disapproved by user"⟩,
       [ExecEvent.approvalRequest call.tool]) ∧
    strContains "Tool execution disapproved by user" "disapproved by user" ∧
    ∀ tid n, ExecEvent.dispatch tid n ∉ (executeToolCall tm false call).2 := by
  have hmain : executeToolCall tm false call =
      (⟨call.tool, false, none, some "Tool execution disapproved by user"⟩,
       [ExecEvent.approvalRequest call.tool]) := by
    simp [executeToolCall, executeBody, hfind, happ, hinfo]
  refine ⟨hmain, by decide, ?_⟩
  intro tid n
  rw [hmain]
  simp

/-- Witness for C4 at the manager holding `toolEcho`. -/
theorem approval_reject_short_circuits_witness :
    executeToolCall tmEcho false ⟨"echo", Json.null⟩ =
      (⟨"echo", false, none, some "Tool execution disapproved by user"⟩,
       [ExecEvent.approvalRequest "echo"]) ∧
    strContains "Tool execution disapproved by user" "disapproved by user" ∧
    ∀ tid n, ExecEvent.dispatch tid n ∉ (executeToolCall tmEcho false ⟨"echo", Json.null⟩).2 :=
  approval_reject_short_circuits tmEcho ⟨"echo", Json.null⟩ toolEcho
    ⟨"echo", "echoes its arguments", "custom", Json.obj [], "custom"⟩ rfl rfl rfl

/-! ## C2 — exceptions are normalized at the registry boundary -/

/-- C2: `executeToolCall` is total (it returns a `ToolResult`, never an
exception), and whenever the dispatched tool raises, the raise is caught and
converted to `success = false` with the normalized message — which contains
the raised exception message verbatim.  The same normalization applies to the
raise inside the approval display when the name has no `tool_info` entry. -/
theorem execute_normalizes_transport_errors (tm : ToolsManager) (approve : Bool)
    (call : ToolCall) (tool : PyTool)
    (hfind : findToolByName tm call.tool = some tool) :
    (∀ msg, tool.run call.arguments = .error msg →
      (tm.approval_enabled = false ∨
        (approve = true ∧ (dictGet call.tool tm.tool_info).isSome = true)) →
      (executeToolCall tm approve call).1 =
        ⟨call.tool, false, none, some (execErrorMsg call.tool msg)⟩ ∧
      strContains (execErrorMsg call.tool msg) msg) ∧
    (tm.approval_enabled = true → dictGet call.tool tm.tool_info = none →
      (executeToolCall tm approve call).1 =
        ⟨call.tool, false, none,
         some (execErrorMsg call.tool "NoneType object has no attribute description")⟩) := by
  constructor
  · intro msg hrun hpath
    refine ⟨?_, strContains_execErrorMsg call.tool msg⟩
    rcases hpath with happ | ⟨ha, hsome⟩
    · simp [executeToolCall, executeBody, hfind, happ, dispatchTool, hrun]
    · by_cases he : tm.approval_enabled
      · obtain ⟨i, hi⟩ := Option.isSome_iff_exists.mp hsome
        simp [executeToolCall, executeBody, hfind, he, ha, hi, dispatchTool, hrun]
      · simp [executeToolCall, executeBody, hfind, he, dispatchTool, hrun]
  · intro happ hnone
    simp [executeToolCall, executeBody, hfind, happ, hnone]

/-- A custom tool whose invocation raises. -/
def toolBoom : PyTool := ⟨9, "boom", "always raises", Json.obj [], fun _ => .error "kaboom"⟩

/-- A manager holding `toolBoom`, with approval mode disabled. -/
def tmBoom : ToolsManager := setApprovalMode (addCustomTool mkToolsManager toolBoom) false

/-- Witness for C2: the raising tool produces a normalized failure result. -/
theorem execute_normalizes_transport_errors_witness :
    (executeToolCall tmBoom true ⟨"boom", Json.null⟩).1 =
      ⟨"boom", false, none, some (execErrorMsg "boom" "kaboom")⟩ ∧
    strContains (execErrorMsg "boom" "kaboom") "kaboom" :=
  (execute_normalizes_transport_errors tmBoom true ⟨"boom", Json.null⟩ toolBoom rfl).1
    "kaboom" rfl (Or.inl rfl)

/-! ## C10 — approval mode is on by default and gates every dispatch -/

theorem addCustomTools_approval (ts : List PyTool) (tm : ToolsManager) :
    (addCustomTools tm ts).approval_enabled = tm.approval_enabled := by
  induction ts generalizing tm with
  | nil => rfl
  | cons t rest ih => exact (ih (addCustomTool tm t)).trans rfl

/-- C10: a freshly constructed `ToolsManager` has approval mode enabled, no
registration operation changes the flag, and while the flag is `true` every
`execute` of a resolvable tool shows the approval gate before any tool object
is dispatched: whenever a `dispatch` event occurs in the execution trace, the
trace starts with the approval request for that call. -/
theorem approval_default_on_and_gate_precedes_dispatch :
    mkToolsManager.approval_enabled = true ∧
    (∀ tm srv t, (registerMcpTool tm srv t).approval_enabled = tm.approval_enabled) ∧
    (∀ tm srv t, (registerHttpTool tm srv t).approval_enabled = tm.approval_enabled) ∧
    (∀ tm ts, (addCustomTools tm ts).approval_enabled = tm.approval_enabled) ∧
    (∀ tm approve call tool, tm.approval_enabled = true →
      findToolByName tm call.tool = some tool →
      ∀ tid n, ExecEvent.dispatch tid n ∈ (executeToolCall tm approve call).2 →
        (executeToolCall tm approve call).2.head? =
          some (ExecEvent.approvalRequest call.tool)) := by
  refine ⟨rfl, fun _ _ _ => rfl, fun _ _ _ => rfl, fun tm ts => addCustomTools_approval ts tm, ?_⟩
  intro tm approve call tool happ hfind tid n hmem
  rw [executeToolCall_trace] at hmem ⊢
  rcases hinfo : dictGet call.tool tm.tool_info with _ | i
  · simp [executeBody, hfind, happ, hinfo] at hmem
  · cases approve
    · simp [executeBody, hfind, happ, hinfo] at hmem
    · rcases hrun : tool.run call.arguments with v | e <;>
        simp [executeBody, hfind, happ, hinfo, dispatchTool, hrun]

/-- Witness for C10 at the manager holding `toolEcho`, whose execution trace
is the approval request followed by the dispatch of tool object 5. -/
theorem approval_default_on_witness :
    mkToolsManager.approval_enabled = true ∧
    (executeToolCall tmEcho true ⟨"echo", Json.null⟩).2.head? =
      some (ExecEvent.approvalRequest "echo") :=
  ⟨approval_default_on_and_gate_precedes_dispatch.1,
   approval_default_on_and_gate_precedes_dispatch.2.2.2.2 tmEcho true
     ⟨"echo", Json.null⟩ toolEcho rfl rfl 5 "echo" (by decide)⟩

/-! ## C1 — last-write-wins holds for descriptors but not for dispatch -/

/-- A tool named `x` registered from subprocess server `A`. -/
def toolXA : PyTool := ⟨1, "x", "tool from server A", Json.obj [], fun _ => .ok (Json.str "A")⟩

/-- A second, distinct tool object named `x`, registered later as a custom tool. -/
def toolXB : PyTool := ⟨2, "x", "custom tool B", Json.obj [], fun _ => .ok (Json.str "B")⟩

/-- `x` registered first from subprocess server `A`, then re-registered from
the custom (local) source. -/
def tmLastWrite : ToolsManager :=
  addCustomTool (registerMcpTool mkToolsManager "A" toolXA) toolXB

/-- Counterexample to C1: after registering `x` from subprocess server `A`
and then from the custom source, the resolved descriptor does carry the later
source (`custom`), but the tool object dispatched under `x` is still the one
registered from `A` (object id 1, producing the string `"A"`), not the one
registered from the later source — `find_tool_by_name` scans
`mcp + http + custom + see` and returns the first name match. -/
theorem registry_dispatch_counterexample :
    (dictGet "x" tmLastWrite.tool_info).map (fun i => i.source) = some "custom" ∧
    (findToolByName tmLastWrite "x").map (fun t => t.tid) = some toolXA.tid ∧
    toolXA.tid ≠ toolXB.tid ∧
    (executeToolCall tmLastWrite true ⟨"x", Json.null⟩).1.result = some (Json.str "A") :=
  ⟨rfl, rfl, by decide, rfl⟩

/-- C1 as amended: re-registration of a name is last-write-wins for the
descriptor — `tool_info` keeps at most one entry per name (keys stay nodup)
and resolving yields the source of the later registration — but the tool
object dispatched under the name is the first registered one in the
`mcp + http + custom + see` scan order, here the object from source `A`. -/
theorem registry_merge_amended (tm : ToolsManager) (srv x : String) (a b : PyTool)
    (hax : a.name = x) (hbx : b.name = x)
    (hfresh : ∀ t ∈ getAllTools tm, t.name ≠ x)
    (hnd : (tm.tool_info.map Prod.fst).Nodup) :
    (dictGet x (addCustomTool (registerMcpTool tm srv a) b).tool_info).map
        (fun i => i.source) = some "custom" ∧
    findToolByName (addCustomTool (registerMcpTool tm srv a) b) x = some a ∧
    ((addCustomTool (registerMcpTool tm srv a) b).tool_info.map Prod.fst).Nodup := by
  refine ⟨?_, ?_, ?_⟩
  · show (dictGet x (dictInsert b.name _ (dictInsert a.name _ tm.tool_info))).map
        (fun i => i.source) = some "custom"
    rw [hbx, dictGet_dictInsert_self]
    rfl
  · have hpa : (a.name == x) = true := by simp [hax]
    have hmcp : tm.mcp_tools.find? (fun t => t.name == x) = none := by
      rw [List.find?_eq_none]
      intro t ht
      simp [hfresh t (by simp [getAllTools, ht])]
    show ((tm.mcp_tools ++ [a]) ++ tm.http_tools ++ (tm.custom_tools ++ [b]) ++
        tm.see_tools).find? (fun t => t.name == x) = some a
    simp [List.find?_append, hmcp, List.find?_cons, hpa]
  · exact nodup_keys_dictInsert _ _ _ (nodup_keys_dictInsert _ _ _ hnd)

/-- Witness for the amended C1 at the concrete two-registration manager. -/
theorem registry_merge_amended_witness :
    (dictGet "x" tmLastWrite.tool_info).map (fun i => i.source) = some "custom" ∧
    findToolByName tmLastWrite "x" = some toolXA ∧
    (tmLastWrite.tool_info.map Prod.fst).Nodup :=
  registry_merge_amended mkToolsManager "A" "x" toolXA toolXB rfl rfl
    (by intro t ht; simp [getAllTools, mkToolsManager] at ht) (by simp [mkToolsManager])

/-! ## C6 — construction-time validation holds for network, not subprocess -/

/-- A stdio keyword mapping with no `command`. -/
def rawStdioNoCommand : StdioRawConfig := { transport := some "stdio" }

/-- The `ServerConfig` that pydantic builds from `rawStdioNoCommand`. -/
def cfgStdioNoCommand : ServerConfig := ⟨"stdio", none, none, none, none⟩

/-- Counterexample to C6: a subprocess descriptor missing its `command`
constructs successfully (`ServerConfig.command` is `Optional` with default
`None`), and the missing-command failure is raised only by
`MCPServer.initialize` — a runtime initialize-time error, contradicting the
claim that such a descriptor fails validation at construction time. -/
theorem descriptor_validation_counterexample :
    mkServerConfig rawStdioNoCommand = .ok cfgStdioNoCommand ∧
    mcpServerInitValidate "s" cfgStdioNoCommand =
      .error "Server s requires a command for stdio transport" :=
  ⟨rfl, rfl⟩

/-- C6 as amended: a network descriptor missing its required `url` does fail
pydantic validation at construction time, but a subprocess keyword mapping —
in particular one missing `command` — always constructs, and the missing
command is only rejected when `initialize` runs. -/
theorem descriptor_validation_amended :
    (∀ raw : HttpRawConfig, raw.url = none →
      ∀ cfg, mkHttpServerConfig raw ≠ .ok cfg) ∧
    (∀ raw : StdioRawConfig, ∃ cfg, mkServerConfig raw = .ok cfg) ∧
    (∀ (raw : StdioRawConfig) (n : String), raw.command = none →
      ∃ cfg e, mkServerConfig raw = .ok cfg ∧
        mcpServerInitValidate n cfg = .error e) := by
  refine ⟨?_, ?_, ?_⟩
  · intro raw hurl cfg
    rcases ht : raw.transport with _ | t <;> simp [mkHttpServerConfig, ht, hurl]
  · intro raw
    exact ⟨_, rfl⟩
  · intro raw n hcmd
    refine ⟨_, ?_, rfl, ?_⟩
    by_cases ht : raw.transport.getD "stdio" = "stdio"
    · exact "Server " ++ n ++ " requires a command for stdio transport"
    · exact "Server " ++ n ++ " uses " ++ raw.transport.getD "stdio" ++
        " transport, but only stdio is supported"
    by_cases ht : raw.transport.getD "stdio" = "stdio" <;>
      simp [mcpServerInitValidate, mkServerConfig, ht, hcmd]

/-- An HTTP keyword mapping with a transport but no `url`. -/
def rawHttpNoUrl : HttpRawConfig := { transport := some "http" }

/-- Witness for the amended C6 at concrete invalid mappings. -/
theorem descriptor_validation_amended_witness :
    (mkHttpServerConfig rawHttpNoUrl ≠ .ok ⟨"http", "u", none, 30, true⟩) ∧
    ∃ cfg e, mkServerConfig rawStdioNoCommand = .ok cfg ∧
      mcpServerInitValidate "s" cfg = .error e :=
  ⟨descriptor_validation_amended.1 rawHttpNoUrl rfl _,
   descriptor_validation_amended.2.2 rawStdioNoCommand "s" rfl⟩

/-! ## C7 — network fleet isolation versus subprocess fleet abort -/

theorem mcpInitAllGo_cons_ok (done : List StdioSrv) (s : StdioSrv)
    (rest : List StdioSrv) (hs : s.initOk = true) :
    mcpInitAllGo done (s :: rest) =
      mcpInitAllGo (done ++ [{ s with sessionOn := true }]) rest := by
  simp [mcpInitAllGo, stdioInitialize, hs]

theorem mcpInitAllGo_cons_fail (done : List StdioSrv) (s : StdioSrv)
    (rest : List StdioSrv) (hs : s.initOk = false) :
    mcpInitAllGo done (s :: rest) =
      ((done ++ { s with sessionOn := false } :: rest).map stdioCleanup, true) := by
  simp [mcpInitAllGo, stdioInitialize, hs]

theorem mcpInitAllGo_all_ok (todo done : List StdioSrv)
    (h : ∀ s ∈ todo, s.initOk = true) :
    mcpInitAllGo done todo =
      (done ++ todo.map (fun s => { s with sessionOn := true }), false) := by
  induction todo generalizing done with
  | nil => simp [mcpInitAllGo]
  | cons s rest ih =>
    rw [mcpInitAllGo_cons_ok done s rest (h s (by simp))]
    have hrec := ih (done ++ [{ s with sessionOn := true }])
      (fun t ht => h t (List.mem_cons_of_mem s ht))
    rw [hrec]
    simp

theorem mcpInitAllGo_failure (todo done : List StdioSrv)
    (h : ∃ s ∈ todo, s.initOk = false) :
    (mcpInitAllGo done todo).2 = true ∧
    ∀ t ∈ (mcpInitAllGo done todo).1, t.sessionOn = false := by
  induction todo generalizing done with
  | nil => simp at h
  | cons s rest ih =>
    by_cases hs : s.initOk
    · rw [mcpInitAllGo_cons_ok done s rest hs]
      refine ih (done ++ [{ s with sessionOn := true }]) ?_
      rcases h with ⟨t, ht, hto⟩
      rcases List.mem_cons.mp ht with h₁ | h₁
      · exact absurd (h₁ ▸ hto) (by simp [hs])
      · exact ⟨t, h₁, hto⟩
    · rw [mcpInitAllGo_cons_fail done s rest (by simpa using hs)]
      refine ⟨rfl, ?_⟩
      intro t ht
      simp only [List.mem_map] at ht
      rcases ht with ⟨u, _, hu⟩
      rw [← hu]
      rfl

/-- C7: `initializeAll` on the network studio never aborts the fleet — every
connection is attempted, a failing connection simply ends up not connected
(and is excluded from `get_initialized_servers`), and every succeeding
connection still initializes; whereas on the subprocess studio any
connection's failure during the bulk bring-up cleans up the whole fleet (every
session ends `None`) and re-raises, while an all-success fleet initializes
fully without raising. -/
theorem fleet_init_isolation_vs_abort :
    (∀ ss, (httpInitializeAll ss).2 = ss.map (fun s => s.name)) ∧
    (∀ ss, (httpInitializeAll ss).1 =
      ss.map (fun s => { s with connected := s.initOk })) ∧
    (∀ ss, (httpInitializedServers (httpInitializeAll ss).1).map (fun s => s.name) =
      (ss.filter (fun s => s.initOk)).map (fun s => s.name)) ∧
    (∀ ss, (∃ s ∈ ss, s.initOk = false) →
      (mcpInitializeAll ss).2 = true ∧
      ∀ t ∈ (mcpInitializeAll ss).1, t.sessionOn = false) ∧
    (∀ ss, (∀ s ∈ ss, s.initOk = true) →
      (mcpInitializeAll ss).2 = false ∧
      ∀ t ∈ (mcpInitializeAll ss).1, t.sessionOn = true) := by
  have htrace : ∀ ss, (httpInitializeAll ss).2 = ss.map (fun s => s.name) := by
    intro ss
    induction ss with
    | nil => rfl
    | cons s rest ih => simp [httpInitializeAll, ih]
  have hstate : ∀ ss, (httpInitializeAll ss).1 =
      ss.map (fun s => { s with connected := s.initOk }) := by
    intro ss
    induction ss with
    | nil => rfl
    | cons s rest ih =>
      by_cases hs : s.initOk <;> simp [httpInitializeAll, httpLifeInit, hs, ih]
  refine ⟨htrace, hstate, ?_, ?_, ?_⟩
  · intro ss
    rw [hstate]
    induction ss with
    | nil => rfl
    | cons s rest ih =>
      by_cases hs : s.initOk <;>
        simp only [httpInitializedServers] at ih ⊢ <;>
        simp [List.filter_cons, hs, ih]
  · intro ss h
    exact mcpInitAllGo_failure ss [] h
  · intro ss h
    rw [mcpInitializeAll, mcpInitAllGo_all_ok ss [] h]
    refine ⟨rfl, ?_⟩
    intro t ht
    simp only [List.nil_append, List.mem_map] at ht
    rcases ht with ⟨u, _, hu⟩
    rw [← hu]

/-- A concrete mixed network fleet: the middle connection fails. -/
def httpFleet : List HttpLifeSrv :=
  [⟨"h1", true, false⟩, ⟨"h2", false, false⟩, ⟨"h3", true, false⟩]

/-- A concrete subprocess fleet whose second connection fails. -/
def stdioFleet : List StdioSrv := [⟨"s1", true, false⟩, ⟨"s2", false, false⟩]

/-- Witness for C7 at the concrete fleets. -/
theorem fleet_init_isolation_vs_abort_witness :
    (httpInitializeAll httpFleet).2 = ["h1", "h2", "h3"] ∧
    (httpInitializedServers (httpInitializeAll httpFleet).1).map (fun s => s.name) =
      ["h1", "h3"] ∧
    (mcpInitializeAll stdioFleet).2 = true ∧
    ∀ t ∈ (mcpInitializeAll stdioFleet).1, t.sessionOn = false :=
  ⟨(fleet_init_isolation_vs_abort.1 httpFleet).trans rfl,
   (fleet_init_isolation_vs_abort.2.2.1 httpFleet).trans rfl,
   (fleet_init_isolation_vs_abort.2.2.2.1 stdioFleet
     ⟨⟨"s2", false, false⟩, by simp [stdioFleet], rfl⟩).1,
   (fleet_init_isolation_vs_abort.2.2.2.1 stdioFleet
     ⟨⟨"s2", false, false⟩, by simp [stdioFleet], rfl⟩).2⟩

/-! ## C9 — teardown order, failure tolerance, no double release -/

theorem cleanSrvCleanup_released (s : CleanSrv) :
    (cleanSrvCleanup s).released = s.released ++ s.stack := by
  unfold cleanSrvCleanup
  split <;> rfl

theorem cleanSrvCleanup_stack (s : CleanSrv) : (cleanSrvCleanup s).stack = [] := by
  unfold cleanSrvCleanup
  split <;> rfl

theorem cleanSrvCleanup_twice_released (s : CleanSrv) :
    (cleanSrvCleanup (cleanSrvCleanup s)).released = (cleanSrvCleanup s).released := by
  rw [cleanSrvCleanup_released (cleanSrvCleanup s), cleanSrvCleanup_stack]
  simp

theorem httpCleanSrvCleanup_released (s : HttpCleanSrv) :
    (httpCleanSrvCleanup s).released =
      s.released ++ (if s.sessionOn then s.stack else []) := by
  unfold httpCleanSrvCleanup
  split
  · split <;> simp
  · simp

theorem httpCleanSrvCleanup_twice_released (s : HttpCleanSrv) :
    (httpCleanSrvCleanup (httpCleanSrvCleanup s)).released =
      (httpCleanSrvCleanup s).released := by
  unfold httpCleanSrvCleanup
  by_cases hs : s.sessionOn
  · by_cases hf : s.closeFails && !s.stack.isEmpty <;> simp [hs, hf]
  · simp [hs]

/-- C9: on both studios, `cleanup_all_servers` visits the connections in
exactly the reverse of registration order — including every connection, so an
individual cleanup failure (logged inside the per-server `except`) never
aborts the loop — a single pass releases exactly the resources each
connection still held, and running the pass a second time releases nothing
further (no double release) and, being total, cannot error. -/
theorem cleanup_reverse_order_idempotent :
    (∀ ss, (mcpCleanupAll ss).2 = (ss.map (fun s => s.name)).reverse) ∧
    (∀ ss, (mcpCleanupAll ss).1.map (fun s => s.released) =
      ss.map (fun s => s.released ++ s.stack)) ∧
    (∀ ss, (mcpCleanupAll (mcpCleanupAll ss).1).1.map (fun s => s.released) =
      (mcpCleanupAll ss).1.map (fun s => s.released)) ∧
    (∀ ss, (httpCleanupAll ss).2 = (ss.map (fun s => s.name)).reverse) ∧
    (∀ ss, (httpCleanupAll ss).1.map (fun s => s.released) =
      ss.map (fun s => s.released ++ (if s.sessionOn then s.stack else []))) ∧
    (∀ ss, (httpCleanupAll (httpCleanupAll ss).1).1.map (fun s => s.released) =
      (httpCleanupAll ss).1.map (fun s => s.released)) := by
  have hmcpState : ∀ ss, (mcpCleanupAll ss).1 = ss.map cleanSrvCleanup := by
    intro ss
    induction ss with
    | nil => rfl
    | cons s rest ih => simp [mcpCleanupAll, ih]
  have hhttpState : ∀ ss, (httpCleanupAll ss).1 = ss.map httpCleanSrvCleanup := by
    intro ss
    induction ss with
    | nil => rfl
    | cons s rest ih => simp [httpCleanupAll, ih]
  refine ⟨?_, ?_, ?_, ?_, ?_, ?_⟩
  · intro ss
    induction ss with
    | nil => rfl
    | cons s rest ih => simp [mcpCleanupAll, ih]
  · intro ss
    rw [hmcpState, List.map_map]
    exact List.map_congr_left (fun s _ => cleanSrvCleanup_released s)
  · intro ss
    rw [hmcpState, hmcpState, List.map_map, List.map_map, List.map_map]
    exact List.map_congr_left (fun s _ => cleanSrvCleanup_twice_released s)
  · intro ss
    induction ss with
    | nil => rfl
    | cons s rest ih => simp [httpCleanupAll, ih]
  · intro ss
    rw [hhttpState, List.map_map]
    exact List.map_congr_left (fun s _ => httpCleanSrvCleanup_released s)
  · intro ss
    rw [hhttpState, hhttpState, List.map_map, List.map_map, List.map_map]
    exact List.map_congr_left (fun s _ => httpCleanSrvCleanup_twice_released s)

/-! ## C3 — listing cascade of the plain-http client -/

theorem listDirect_all_fail (env : NetEnv) (sess : Option String)
    (ps : List String) (h : ∀ p ∈ ps, outcomeFails (env.getAt p)) :
    listDirect env sess ps = (none, ps.map (fun p => ReqEvent.getReq p sess)) := by
  induction ps with
  | nil => rfl
  | cons p rest ih =>
    have hp := h p (by simp)
    have hrest := ih (fun q hq => h q (List.mem_cons_of_mem p hq))
    rcases hget : env.getAt p with r | m
    · rw [hget] at hp
      have hne : r.status ≠ 200 := hp
      simp [listDirect, hget, hne, hrest]
    · simp [listDirect, hget, hrest]

/-- C3: for `_list_tools_aiohttp`, the listing paths `/tools`, `/api/tools`,
`/mcp/tools` are tried in that fixed order: a first 200 response carrying a
`tools` envelope or a bare list is returned immediately with no further path
and no JSON-RPC POST; a 404 moves to the next path; when all three direct
paths fail, exactly one JSON-RPC `tools/list` POST is sent to the base URL
and its `result.tools` is returned; and when that fallback also fails the
result is the empty list — the function is total, so nothing ever escapes to
the registry. -/
theorem list_tools_cascade (env : NetEnv) (sess : Option String) :
    (∀ r ts, env.getAt "/tools" = .resp r → r.status = 200 →
      (r.body = Json.obj [("tools", Json.arr ts)] ∨ r.body = Json.arr ts) →
      listToolsAiohttp env sess = (Json.arr ts, [ReqEvent.getReq "/tools" sess])) ∧
    (∀ r₁ r₂ r₃ ts, env.getAt "/tools" = .resp r₁ → r₁.status = 404 →
      env.getAt "/api/tools" = .resp r₂ → r₂.status = 404 →
      env.getAt "/mcp/tools" = .resp r₃ → r₃.status = 200 →
      (r₃.body = Json.obj [("tools", Json.arr ts)] ∨ r₃.body = Json.arr ts) →
      listToolsAiohttp env sess = (Json.arr ts, directTrace sess)) ∧
    (∀ rb ts, directAllFail env →
      env.postAt "" mcpListRequest = .resp rb → rb.status = 200 →
      rb.body = Json.obj [("result", Json.obj [("tools", Json.arr ts)])] →
      listToolsAiohttp env sess =
        (Json.arr ts, directTrace sess ++ [ReqEvent.postReq "" sess])) ∧
    (∀ m, directAllFail env → env.postAt "" mcpListRequest = .exn m →
      listToolsAiohttp env sess =
        (Json.arr [], directTrace sess ++ [ReqEvent.postReq "" sess])) := by
  have hdirect : directAllFail env →
      listDirect env sess listEndpoints = (none, directTrace sess) := by
    intro hall
    rw [listDirect_all_fail env sess listEndpoints]
    · rfl
    · intro p hp
      rcases hall with ⟨h₁, h₂, h₃⟩
      simp only [listEndpoints, List.mem_cons, List.not_mem_nil, or_false] at hp
      rcases hp with h | h | h <;> rw [h] <;> assumption
  refine ⟨?_, ?_, ?_, ?_⟩
  · intro r ts hget h200 hbody
    rcases hbody with hb | hb <;>
      simp [listToolsAiohttp, listEndpoints, listDirect, hget, h200, hb,
        parseListBody, jsonLookup, jsonSized]
  · intro r₁ r₂ r₃ ts h₁ hs₁ h₂ hs₂ h₃ hs₃ hbody
    rcases hbody with hb | hb <;>
      simp [listToolsAiohttp, listEndpoints, listDirect, h₁, hs₁, h₂, hs₂, h₃, hs₃,
        hb, parseListBody, jsonLookup, jsonSized, directTrace]
  · intro rb ts hall hpost h200 hbody
    rw [listToolsAiohttp, hdirect hall]
    simp [hpost, h200, hbody, fallbackListExtract, jsonLookup, jsonSized]
  · intro m hall hpost
    rw [listToolsAiohttp, hdirect hall]
    simp [hpost]

/-- A server that 404s on `/tools` and `/api/tools` and answers `/mcp/tools`
with a `tools` envelope. -/
def envCascade : NetEnv :=
  { getAt := fun p =>
      if p = "/mcp/tools" then .resp ⟨200, Json.obj [("tools", Json.arr [Json.str "t1"])], []⟩
      else .resp ⟨404, Json.null, []⟩,
    postAt := fun _ _ => .exn "connection refused" }

/-- A server where every direct listing path 404s and the JSON-RPC fallback
answers with `result.tools`. -/
def envFallback : NetEnv :=
  { getAt := fun _ => .resp ⟨404, Json.null, []⟩,
    postAt := fun p _ =>
      if p = "" then
        .resp ⟨200, Json.obj [("result", Json.obj [("tools", Json.arr [Json.str "m1"])])], []⟩
      else .exn "connection refused" }

/-- Witness for C3: the 404 cascade reaches the third path with no JSON-RPC
POST, and with all direct paths failing the JSON-RPC fallback result is
parsed from `result.tools`. -/
theorem list_tools_cascade_witness :
    listToolsAiohttp envCascade none =
      (Json.arr [Json.str "t1"], directTrace none) ∧
    listToolsAiohttp envFallback none =
      (Json.arr [Json.str "m1"], directTrace none ++ [ReqEvent.postReq "" none]) :=
  ⟨(list_tools_cascade envCascade none).2.1 ⟨404, Json.null, []⟩ ⟨404, Json.null, []⟩
      ⟨200, Json.obj [("tools", Json.arr [Json.str "t1"])], []⟩ [Json.str "t1"]
      rfl rfl rfl rfl rfl rfl (Or.inl rfl),
   (list_tools_cascade envFallback none).2.2.1
      ⟨200, Json.obj [("result", Json.obj [("tools", Json.arr [Json.str "m1"])])], []⟩
      [Json.str "m1"] (by refine ⟨?_, ?_, ?_⟩ <;> simp [envFallback, outcomeFails])
      rfl rfl rfl⟩

/-! ## C8 — connectivity probe and session-token capture/echo -/

theorem listDirect_session (env : NetEnv) (sess : Option String)
    (ps : List String) (e : ReqEvent) (he : e ∈ (listDirect env sess ps).2) :
    reqSession e = sess := by
  induction ps with
  | nil => simp [listDirect] at he
  | cons p rest ih =>
    rcases hrec : listDirect env sess rest with ⟨v, tr⟩
    rw [hrec] at ih
    rw [listDirect, hrec] at he
    rcases hget : env.getAt p with r | m <;> rw [hget] at he
    · by_cases h200 : r.status = 200
      · rcases hbody : parseListBody r.body with w | _ <;> simp [h200, hbody] at he
        · subst he
          rfl
        · rcases he with he | he
          · subst he; rfl
          · exact ih he
      · simp [h200] at he
        rcases he with he | he
        · subst he; rfl
        · exact ih he
    · simp at he
      rcases he with he | he
      · subst he; rfl
      · exact ih he

theorem listToolsAiohttp_session (env : NetEnv) (sess : Option String)
    (e : ReqEvent) (he : e ∈ (listToolsAiohttp env sess).2) :
    reqSession e = sess := by
  rw [listToolsAiohttp] at he
  rcases hd : listDirect env sess listEndpoints with ⟨v, tr⟩
  have htr : ∀ x ∈ tr, reqSession x = sess := by
    intro x hx
    exact listDirect_session env sess listEndpoints x (by rw [hd]; exact hx)
  rcases v with _ | v <;> rw [hd] at he
  · rcases hpost : env.postAt "" mcpListRequest with r | m <;> rw [hpost] at he
    · by_cases h200 : r.status = 200
      · rcases hfb : fallbackListExtract r.body with w | _ <;> simp [h200, hfb] at he <;>
          · rcases he with he | he
            · exact htr e he
            · subst he; rfl
      · simp [h200] at he
        rcases he with he | he
        · exact htr e he
        · subst he; rfl
    · simp at he
      rcases he with he | he
      · exact htr e he
      · subst he; rfl
  · exact htr e he

theorem callDirect_session (env : NetEnv) (sess : Option String) (body : Json)
    (ps : List String) (e : ReqEvent) (he : e ∈ (callDirect env sess body ps).2) :
    reqSession e = sess := by
  induction ps with
  | nil => simp [callDirect] at he
  | cons p rest ih =>
    rcases hrec : callDirect env sess body rest with ⟨v, tr⟩
    rw [hrec] at ih
    rw [callDirect, hrec] at he
    rcases hpost : env.postAt p body with r | m <;> rw [hpost] at he
    · by_cases h200 : r.status = 200 <;> simp [h200] at he
      · subst he
        rfl
      · rcases he with he | he
        · subst he; rfl
        · exact ih he
    · simp at he
      rcases he with he | he
      · subst he; rfl
      · exact ih he

theorem callToolAiohttp_session (env : NetEnv) (sess : Option String)
    (n : String) (args : Json) (ts : String) (e : ReqEvent)
    (he : e ∈ (callToolAiohttp env sess n args ts).2) : reqSession e = sess := by
  rw [callToolAiohttp] at he
  rcases hd : callDirect env sess (callPayload n args ts) (callEndpoints n) with ⟨v, tr⟩
  have htr : ∀ x ∈ tr, reqSession x = sess := by
    intro x hx
    exact callDirect_session env sess (callPayload n args ts) (callEndpoints n) x
      (by rw [hd]; exact hx)
  rcases v with _ | v <;> rw [hd] at he
  · rcases hpost : env.postAt "" (mcpCallRequest n args) with r | m <;> rw [hpost] at he
    · by_cases h200 : r.status = 200
      · rcases hb : r.body with _ | _ | _ | _ | _ | fs <;> simp [h200, hb] at he <;>
          · rcases he with he | he
            · exact htr e he
            · subst he; rfl
      · simp [h200] at he
        rcases he with he | he
        · exact htr e he
        · subst he; rfl
    · simp at he
      rcases he with he | he
      · exact htr e he
      · subst he; rfl
  · exact htr e he

/-- A server whose root probe response is accepted (status 404 < 500) and
carries an `mcp-session-id` header. -/
def envProbe404 : NetEnv :=
  { getAt := fun p =>
      if p = "/" then .resp ⟨404, Json.null, [("mcp-session-id", "sess-1")]⟩
      else .exn "unreachable",
    postAt := fun _ _ => .exn "unreachable" }

/-- Counterexample to C8: the probe accepts the root response (status
404 < 500) which carries the `mcp-session-id` header, yet no session token is
captured — `_test_connection` stores the header only in its `status == 200`
branch, so the claim fails for accepted non-200 probe responses. -/
theorem probe_capture_counterexample :
    envProbe404.getAt "/" = .resp ⟨404, Json.null, [("mcp-session-id", "sess-1")]⟩ ∧
    404 < 500 ∧
    headerLookup "mcp-session-id" [("mcp-session-id", "sess-1")] = some "sess-1" ∧
    testConnection envProbe404 = (none, [ReqEvent.getReq "/" none]) :=
  ⟨rfl, by decide, rfl, rfl⟩

/-- C8 as amended: the probe tries `/`, `/health`, `/status` in order and
accepts the first response with status < 500 (skipping 5xx and raising
endpoints), but the session token is captured only when the accepted response
has status exactly 200; once a token is stored, it is echoed as the
`mcp-session-id` header on every subsequent request of that connection — all
listing requests and all tool-call requests, fallback POSTs included. -/
theorem probe_session_amended :
    (∀ env r, env.getAt "/" = .resp r → r.status = 200 →
      testConnection env =
        (headerLookup "mcp-session-id" r.headers, [ReqEvent.getReq "/" none])) ∧
    (∀ env r, env.getAt "/" = .resp r → r.status ≠ 200 → r.status < 500 →
      testConnection env = (none, [ReqEvent.getReq "/" none])) ∧
    (∀ env r₁ r₂, env.getAt "/" = .resp r₁ → 500 ≤ r₁.status →
      env.getAt "/health" = .resp r₂ → r₂.status = 200 →
      testConnection env = (headerLookup "mcp-session-id" r₂.headers,
        [ReqEvent.getReq "/" none, ReqEvent.getReq "/health" none])) ∧
    (∀ env s e, e ∈ (listToolsAiohttp env (some s)).2 → reqSession e = some s) ∧
    (∀ env s n args ts e, e ∈ (callToolAiohttp env (some s) n args ts).2 →
      reqSession e = some s) := by
  refine ⟨?_, ?_, ?_, ?_, ?_⟩
  · intro env r hget h200
    simp [testConnection, healthEndpoints, testConnectionGo, hget, h200]
  · intro env r hget h200 h500
    simp [testConnection, healthEndpoints, testConnectionGo, hget, h200, h500]
  · intro env r₁ r₂ h₁ hs₁ h₂ hs₂
    have hne : ¬r₁.status = 200 := by omega
    have hnl : ¬r₁.status < 500 := by omega
    simp [testConnection, healthEndpoints, testConnectionGo, h₁, h₂, hne, hnl, hs₂]
  · intro env s e he
    exact listToolsAiohttp_session env (some s) e he
  · intro env s n args ts e he
    exact callToolAiohttp_session env (some s) n args ts e he

/-- A server whose root probe answers 200 with a session header. -/
def envProbe200 : NetEnv :=
  { getAt := fun p =>
      if p = "/" then .resp ⟨200, Json.null, [("mcp-session-id", "tok-9")]⟩
      else .exn "unreachable",
    postAt := fun _ _ => .exn "unreachable" }

/-- Witness for the amended C8: the 200 probe captures the token, and a
listing request issued with the stored token carries it. -/
theorem probe_session_amended_witness :
    testConnection envProbe200 = (some "tok-9", [ReqEvent.getReq "/" none]) ∧
    reqSession (ReqEvent.getReq "/tools" (some "tok-9")) = some "tok-9" :=
  ⟨(probe_session_amended.1 envProbe200 ⟨200, Json.null, [("mcp-session-id", "tok-9")]⟩
      rfl rfl).trans rfl,
   probe_session_amended.2.2.2.1 envCascade "tok-9"
     (ReqEvent.getReq "/tools" (some "tok-9")) (by decide)⟩

end NeuralProtocol
